import Mathlib

/-!
# release-it: `lib/git.js`

A shallow embedding of the git workflow, changelog and GitHub release steps of
`lib/git.js`.

Promises are modelled by their settled outcome, side effects by a trace of
events appended to an explicit state.  Everything `git.js` imports is a
parameter of the model (`World`): the command executor `run`, the template
function `util.format`, the two URL parsers, `glob`, `path.basename`, and the
remote API.  Every external answer may depend on the history of events so far.
-/

namespace ReleaseIt

/-! ## Values, errors, outcomes -/

/-- JavaScript values that flow through the option store and the API parameters. -/
inductive Value where
  | undefined
  | null
  | bool (b : Bool)
  | num (n : Int)
  | str (s : String)
  deriving DecidableEq, Repr

/-- The text JavaScript produces for a value inside a template literal. -/
def Value.toStr : Value → String
  | .undefined => "undefined"
  | .null => "null"
  | .bool true => "true"
  | .bool false => "false"
  | .num n => toString n
  | .str s => s

/-- An error object: `message`, and the `defaultMessage` the GitHub client adds. -/
structure Err where
  message : String
  defaultMessage : Value := Value.undefined
  deriving DecidableEq, Repr

/-- How a call ends: the promise it returns resolves or rejects, or the call
throws before returning a promise. -/
inductive Outcome (α : Type) where
  | resolved (v : α)
  | rejected (e : Err)
  | thrown (e : Err)
  deriving DecidableEq, Repr

/-- An object as a list of fields, first binding wins on lookup. -/
abbrev Obj := List (String × Value)

/-- Property read `obj.key`; a missing property reads as `undefined`. -/
def Obj.get (o : Obj) (key : String) : Value :=
  match o.lookup key with
  | some v => v
  | none => Value.undefined

/-- Lodash `_.extend` of `a` then `b` onto an empty object: the fields of `b`
override those of `a`. -/
def extend (a b : Obj) : Obj := b ++ a

/-! ## JavaScript string operations used by `git.js` -/

/-- Line terminators, which `.` in a regular expression does not match. -/
def isLineTerminator (c : Char) : Bool :=
  c.toNat = 0x0A || c.toNat = 0x0D || c.toNat = 0x2028 || c.toNat = 0x2029

/-- White space and line terminators removed by `String.prototype.trim`. -/
def isJsWhitespace (c : Char) : Bool :=
  c.toNat = 0x09 || c.toNat = 0x0A || c.toNat = 0x0B || c.toNat = 0x0C || c.toNat = 0x0D ||
  c.toNat = 0x20 || c.toNat = 0xA0 || c.toNat = 0x1680 ||
  (0x2000 ≤ c.toNat && c.toNat ≤ 0x200A) ||
  c.toNat = 0x2028 || c.toNat = 0x2029 || c.toNat = 0x202F || c.toNat = 0x205F ||
  c.toNat = 0x3000 || c.toNat = 0xFEFF

/-- JavaScript `String.prototype.trim`. -/
def jsTrim (s : String) : String :=
  String.mk (((s.data.dropWhile isJsWhitespace).reverse.dropWhile isJsWhitespace).reverse)

/-- First occurrence of `pat` in a text: the text before it and the text after it. -/
def splitFirst (pat : List Char) : List Char → Option (List Char × List Char)
  | [] => if pat = [] then some ([], []) else none
  | c :: cs =>
    if pat.isPrefixOf (c :: cs) then some ([], (c :: cs).drop pat.length)
    else match splitFirst pat cs with
      | some (before, after) => some (c :: before, after)
      | none => none

/-- Expansion of the `$` patterns of a replacement string when the pattern has
no capture groups: `$$`, `$&`, the text before the match, the text after the
match; any other `$` is literal. -/
def getSubstitutionFrom (matched before after : List Char) : Bool → List Char → List Char
  | false, [] => []
  | true, [] => ['$']
  | false, c :: rest =>
    if c = '$' then getSubstitutionFrom matched before after true rest
    else c :: getSubstitutionFrom matched before after false rest
  | true, c :: rest =>
    if c = '$' then '$' :: getSubstitutionFrom matched before after false rest
    else if c = '&' then matched ++ getSubstitutionFrom matched before after false rest
    else if c = Char.ofNat 96 then before ++ getSubstitutionFrom matched before after false rest
    else if c = Char.ofNat 39 then after ++ getSubstitutionFrom matched before after false rest
    else '$' :: c :: getSubstitutionFrom matched before after false rest

/-- Expansion of a whole replacement string; the flag of `getSubstitutionFrom`
says that the character just read was an unconsumed `$`. -/
def getSubstitution (matched before after rep : List Char) : List Char :=
  getSubstitutionFrom matched before after false rep

/-- JavaScript `text.replace(pattern, replacement)` where the pattern is a string, or a
regular expression that is a literal text without the `g` flag: only the first
occurrence is replaced, and the replacement string is expanded. -/
def jsReplaceFirst (text pat rep : String) : String :=
  match splitFirst pat.data text.data with
  | some (before, after) =>
    String.mk (before ++ getSubstitution pat.data before after rep.data ++ after)
  | none => text

/-- The call `project.replace(/\./g, "-")`: every `.` becomes `-`. -/
def dotsToDashes (s : String) : String :=
  String.mk (s.data.map (fun c => if c = '.' then '-' else c))

/-- Match of `commitRefRe = /#.+$/`: the leftmost `#` that is followed, up to the
end of the text, by at least one character and no line terminator. -/
def matchCommitRef : List Char → Option (List Char)
  | [] => none
  | c :: cs =>
    if c = '#' && !cs.isEmpty && cs.all (fun d => !isLineTerminator d) then some (c :: cs)
    else matchCommitRef cs

/-- The call `text.replace(/^\#/, '')`: a leading `#` is dropped. -/
def dropLeadingHash : List Char → List Char
  | c :: cs => if c = '#' then cs else c :: cs
  | [] => []

/-- JavaScript `Array.prototype.join(sep)`. -/
def jsJoin (sep : String) : List String → String
  | [] => ""
  | [a] => a
  | a :: b :: rest => a ++ sep ++ jsJoin sep (b :: rest)

/-! ## The world outside `git.js` -/

/-- Second argument of `run`: absent, the read-only marker, or one extra argument. -/
inductive RunOpts where
  | none
  | readOnly
  | arg (a : String)
  deriving DecidableEq, Repr

/-- What a successful command yields. -/
structure CommandResult where
  output : String
  deriving DecidableEq, Repr

/-- Parameters of `repos.createRelease`. -/
structure ReleaseParams where
  owner : Value
  repo : Value
  tag_name : String
  name : String
  body : Value
  prerelease : Value
  draft : Value
  deriving DecidableEq, Repr

/-- The fields of a `createRelease` response that `git.js` reads. -/
structure ReleaseResponse where
  id : Value
  tag_name : String
  name : String
  location : String
  deriving DecidableEq, Repr

/-- Parameters of `repos.uploadAsset`. -/
structure UploadParams where
  owner : Value
  repo : Value
  id : Value
  filePath : String
  name : String
  deriving DecidableEq, Repr

/-- The field of an `uploadAsset` response that `git.js` reads. -/
structure UploadResponse where
  browser_download_url : String
  deriving DecidableEq, Repr

/-- The options `getGithubClient` builds the API client with (the constant
fields `version`, `protocol`, `timeout` and `headers` are left out). -/
structure ClientOptions where
  debug : Bool
  host : Value
  pathPrefix : String
  deriving DecidableEq, Repr

/-- Observable actions, in the order they happen.  A `log` event carries the
texts logged; an error object is logged by its message. -/
inductive Event where
  | run (command : String) (opts : RunOpts)
  | log (level : String) (args : List String)
  | stdout (text : String)
  | newGitHubApi (o : ClientOptions)
  | authenticate (token : Value)
  | createRelease (p : ReleaseParams)
  | uploadAsset (p : UploadParams)
  | glob (pattern : String)
  deriving DecidableEq, Repr

/-- Everything `git.js` imports and calls.  `run` is the command executor of
`./shell` (it answers `none` when it resolves without a result), `format` is
`util.format`, `repoUrlParser` is `parse-github-repo-url` (`none` when it
returns `false`), `repoPathParser` is `parse-repo`, `basename` is
`path.basename`, `cwd` is `process.cwd()`. -/
structure World where
  run : List Event → String → RunOpts → Except Err (Option CommandResult)
  format : String → Value → String
  repoUrlParser : String → Option (String × String × String)
  repoPathParser : String → Obj
  basename : String → String
  glob : List Event → String → Except Err (List String)
  createRelease : List Event → ReleaseParams → Except Err ReleaseResponse
  uploadAsset : List Event → UploadParams → Except Err UploadResponse
  cwd : String

/-- The flags of `./config` that `git.js` reads and its runtime option store. -/
structure Config where
  isForce : Bool
  isDryRun : Bool
  isVerbose : Bool
  isDebug : Bool
  runtime : Obj
  deriving DecidableEq, Repr

/-- Module state of `git.js` (`_githubClient`), the configuration, and the
trace of events so far. -/
structure State where
  config : Config
  githubClient : Option ClientOptions
  trace : List Event
  deriving DecidableEq, Repr

/-- Append one event to the trace. -/
def State.emit (s : State) (e : Event) : State :=
  { s with trace := s.trace ++ [e] }

/-- Modelled from the spec: `config.setRuntimeOption(key, value)` of `./config`,
a write to a key/value mapping in which a later read sees the last value
written. -/
def State.setRuntimeOption (s : State) (key : String) (v : Value) : State :=
  { s with config := { s.config with runtime := (key, v) :: s.config.runtime } }

/-- Modelled from the spec: `config.getRuntimeOption(key)` of `./config`, the
last value written under the key, `undefined` when there is none. -/
def State.getRuntimeOption (s : State) (key : String) : Value :=
  s.config.runtime.get key

/-- A call `run(command, opts)`: the call is recorded and the executor answers
from the history before the call. -/
def run (W : World) (command : String) (opts : RunOpts) (s : State) :
    Except Err (Option CommandResult) × State :=
  (W.run s.trace command opts, s.emit (Event.run command opts))

/-- The `TypeError` of reading a property of `undefined`. -/
def typeError (prop : String) : Err :=
  { message := "Cannot read property " ++ prop ++ " of undefined" }

/-! ## `git.js` -/

/-- Function `tagExists(tag)`: both handlers of `.then` return a value, so it always resolves. -/
def tagExists (W : World) (tag : String) (s : State) : Bool × State :=
  match run W ("!git show-ref --tags --quiet --verify -- \"refs/tags/" ++ tag ++ "\"")
      RunOpts.readOnly s with
  | (.ok _, s1) => (true, s1)
  | (.error _, s1) => (false, s1)

/-- The pattern `repo.replace(commitRef, '')` searches for: `commitRef` is not a
regular expression, so it is converted to a string, the matched text for a
match array and `null` for no match. -/
def commitRefPattern : Option (List Char) → String
  | some m => String.mk m
  | none => "null"

/-- Function `clone(repo, dir)`. -/
def clone (W : World) (repo dir : String) (s : State) :
    Outcome (Option CommandResult) × State :=
  let commitRef := matchCommitRef repo.data
  let branch :=
    match commitRef with
    | some m => if m ≠ [] then String.mk (dropLeadingHash m) else "master"
    | none => "master"
  let cleanRepo := jsReplaceFirst repo (commitRefPattern commitRef) ""
  match run W ("rm -rf " ++ dir) RunOpts.none s with
  | (.error e, s1) => (.rejected e, s1)
  | (.ok _, s1) =>
    match run W ("git clone " ++ cleanRepo ++ " -b " ++ branch ++ " --single-branch " ++ dir)
        RunOpts.none s1 with
    | (.ok r, s2) => (.resolved r, s2)
    | (.error err, s2) => (.rejected err, s2.emit (Event.log "error" ["Unable to clone " ++ repo]))

/-- The argument of `stage`: nothing, one path, or an array of paths. -/
inductive StageArg where
  | undefined
  | str (file : String)
  | arr (files : List String)
  deriving DecidableEq, Repr

/-- Truthiness of the argument: the empty string is falsy, every array is truthy. -/
def StageArg.truthy : StageArg → Bool
  | .undefined => false
  | .str f => f ≠ ""
  | .arr _ => true

/-- The argument as `git add` receives it: `file.join(' ')` for an array. -/
def StageArg.files : StageArg → String
  | .undefined => "undefined"
  | .str f => f
  | .arr fs => jsJoin " " fs

/-- The argument inside a template literal: an array is joined with commas. -/
def StageArg.toStr : StageArg → String
  | .undefined => "undefined"
  | .str f => f
  | .arr fs => jsJoin "," fs

/-- Function `stage(file)`. -/
def stage (W : World) (file : StageArg) (s : State) : Outcome (Option CommandResult) × State :=
  if file.truthy then
    match run W ("git add " ++ file.files) RunOpts.none s with
    | (.ok r, s1) => (.resolved r, s1)
    | (.error err, s1) =>
      (.resolved none,
        (s1.emit (Event.log "debug" [err.message])).emit
          (Event.log "warn" ["Could not stage " ++ file.toStr]))
  else (.resolved none, s)

/-- Function `stageDir(baseDir)`; an absent or empty `baseDir` becomes `.`. -/
def stageDir (W : World) (baseDir : Option String) (s : State) :
    Outcome (Option CommandResult) × State :=
  let baseDir := match baseDir with
    | some d => if d ≠ "" then d else "."
    | none => "."
  match run W ("git add " ++ baseDir ++ " --all") RunOpts.none s with
  | (.ok r, s1) => (.resolved r, s1)
  | (.error err, s1) => (.rejected err, s1)

/-- The command line `commit` builds. -/
def commitCommand (W : World) (isForce : Bool) (message : String) (version : Value) : String :=
  "git commit " ++ (if isForce then "--allow-empty " else "") ++
    "--message=\"" ++ W.format message version ++ "\""

/-- Function `commit(path, message, version)`. -/
def commit (W : World) (path message : String) (version : Value) (s : State) :
    Outcome (Option CommandResult) × State :=
  match run W (commitCommand W s.config.isForce message version) (RunOpts.arg path) s with
  | (.ok r, s1) => (.resolved r, s1)
  | (.error err, s1) =>
    (.resolved none,
      (s1.emit (Event.log "debug" [err.message])).emit
        (Event.log "warn" ["No changes to commit. The latest commit will be tagged."]))

/-- The command line `tag` builds. -/
def tagCommand (W : World) (isForce : Bool) (version : Value) (tag annotation : String) : String :=
  let force := if isForce then "--force " else ""
  let message := W.format annotation version
  let formattedVersion := W.format tag version
  "git tag " ++ force ++ "--annotate --message=\"" ++ message ++ "\" " ++ formattedVersion

/-- Function `tag(version, tag, annotation)`. -/
def tag (W : World) (version : Value) (tag annotation : String) (s : State) :
    Outcome Unit × State :=
  match run W (tagCommand W s.config.isForce version tag annotation) RunOpts.none s with
  | (.ok _, s1) => (.resolved (), s1.setRuntimeOption "tag_set" (Value.bool true))
  | (.error _, s1) =>
    (.resolved (),
      s1.emit (Event.log "warn" ["Could not tag. Does tag \"" ++ version.toStr ++
        "\" already exist? Use --force to move a tag."]))

/-- Function `getLatestTag()`; `none` is `null`. -/
def getLatestTag (W : World) (s : State) : Outcome (Option String) × State :=
  match run W "!git describe --tags --abbrev=0" RunOpts.readOnly s with
  | (.ok result, s1) =>
    let latestTag :=
      match result with
      | some r => if r.output ≠ "" then some (jsTrim r.output) else none
      | none => none
    (.resolved latestTag, s1)
  | (.error err, s1) => (.rejected err, s1)

/-- The part of `options.github` that `release` reads. -/
structure GithubOptions where
  releaseName : String
  preRelease : Value
  draft : Value
  deriving DecidableEq, Repr

/-- The part of `options.src` that `getChangelog` reads. -/
structure SrcOptions where
  tagName : String
  deriving DecidableEq, Repr

/-- The options object; `changelogCommand` is `none` when it is not set. -/
structure Options where
  changelogCommand : Option String
  src : SrcOptions
  github : GithubOptions
  deriving DecidableEq, Repr

/-- The revision-range placeholder, the text of `/\[REV_RANGE\]/`. -/
def revRange : String := "[REV_RANGE]"

/-- Function `runChangelogCommand(command)`, the inner function of `getChangelog`.
Reading `result.output` of an absent result throws inside the handler, which
rejects the promise. -/
def runChangelogCommand (W : World) (options : Options) (command : String) (s : State) :
    Outcome (Option Options) × State :=
  match run W command RunOpts.readOnly s with
  | (.ok result, s1) =>
    let s2 := if s1.config.isVerbose then s1.emit (Event.stdout "\n") else s1
    match result with
    | some r => (.resolved (some options), s2.setRuntimeOption "changelog" (Value.str r.output))
    | none => (.rejected (typeError "output"), s2)
  | (.error err, s1) => (.rejected err, s1)

/-- Function `getChangelog(options)`; the resolved value `none` is `undefined`, the value
of `noop`. -/
def getChangelog (W : World) (options : Options) (s : State) :
    Outcome (Option Options) × State :=
  match options.changelogCommand with
  | none => (.resolved none, s)
  | some changelogCommand =>
    if changelogCommand ≠ "" then
      if (splitFirst revRange.data changelogCommand.data).isSome then
        let previousVersion := s.getRuntimeOption "previousVersion"
        let previousTag := W.format options.src.tagName previousVersion
        match tagExists W previousTag s with
        | (hasTag, s1) =>
          let command := jsReplaceFirst changelogCommand revRange
            (if hasTag then previousTag ++ "...HEAD" else "")
          match runChangelogCommand W options command s1 with
          | (.resolved v, s2) => (.resolved v, s2)
          | (.rejected err, s2) =>
            (.rejected { message := "Could not create changelog from latest tag (" ++
                previousTag ++ ") to HEAD." },
              (s2.emit (Event.log "warn"
                ["Probably the current version in package.json is not a known tag in the repository."])).emit
                (Event.log "debug" [err.message]))
          | (.thrown err, s2) =>
            (.rejected { message := "Could not create changelog from latest tag (" ++
                previousTag ++ ") to HEAD." },
              (s2.emit (Event.log "warn"
                ["Probably the current version in package.json is not a known tag in the repository."])).emit
                (Event.log "debug" [err.message]))
      else runChangelogCommand W options changelogCommand s
    else (.resolved none, s)

/-- Function `parseRepo(remoteUrl)`.  When the URL parser returns `false`, `project` is
`undefined` and `project.replace` throws. -/
def parseRepo (W : World) (remoteUrl : String) : Except Err Obj :=
  match W.repoUrlParser remoteUrl with
  | none => .error (typeError "replace")
  | some (owner, project, _) =>
    let rename_proj := dotsToDashes project
    let parseResult := W.repoPathParser (jsReplaceFirst remoteUrl project rename_proj)
    .ok (extend parseResult
      [("project", Value.str project), ("remote", Value.str remoteUrl),
       ("repository", Value.str (owner ++ "/" ++ project))])

/-- Function `getGithubClient(repo)`: the client is built and authenticated on the first
call only. -/
def getGithubClient (repo : Obj) (s : State) : State :=
  match s.githubClient with
  | some _ => s
  | none =>
    let o : ClientOptions :=
      { debug := s.config.isDebug
        host := if repo.get "host" = Value.str "github.com" then Value.str "" else repo.get "host"
        pathPrefix := if repo.get "host" = Value.str "github.com" then "" else "/api/v3" }
    ({ s with githubClient := some o }.emit (Event.newGitHubApi o)).emit
      (Event.authenticate (s.getRuntimeOption "github_token"))

/-- The retry loop of `async-retry` with `left` retries remaining: a failed
attempt is tried again while retries remain, and the last failure is the
result.  Waiting between attempts is not modelled. -/
def retryFrom (fn : Nat → State → Outcome Unit × State) : Nat → Nat → State → Outcome Unit × State
  | 0, attempt, s =>
    match fn attempt s with
    | (.resolved v, s1) => (.resolved v, s1)
    | (.rejected e, s1) => (.rejected e, s1)
    | (.thrown e, s1) => (.rejected e, s1)
  | left + 1, attempt, s =>
    match fn attempt s with
    | (.resolved v, s1) => (.resolved v, s1)
    | (.rejected _, s1) => retryFrom fn left (attempt + 1) s1
    | (.thrown _, s1) => retryFrom fn left (attempt + 1) s1

/-- Number of retries `async-retry` makes when it is given no `retries` option,
as documented. -/
def defaultRetries : Nat := 10

/-- The call `retry(fn, options)` of `async-retry` as documented: `retries` is
the maximum number of retries after the first try, `defaultRetries` when the
call gives no options (`none`), and the attempt number given to `fn` starts
at 1. -/
def retry (fn : Nat → State → Outcome Unit × State) (retries : Option Nat) (s : State) :
    Outcome Unit × State :=
  match retries with
  | some n => retryFrom fn n 1 s
  | none => retryFrom fn defaultRetries 1 s

/-- One attempt of `release`: the function handed to `retry`. -/
def createReleaseAttempt (W : World) (options : Options) (repo : Obj) (version : Value)
    (tagName : String) (retries : Nat) (attempt : Nat) (s : State) : Outcome Unit × State :=
  let tag_name := W.format tagName version
  let name := W.format options.github.releaseName version
  let params : ReleaseParams :=
    { owner := repo.get "owner"
      repo := repo.get "project"
      tag_name := tag_name
      name := name
      body := s.getRuntimeOption "changelog"
      prerelease := options.github.preRelease
      draft := options.github.draft }
  let s1 := s.emit (Event.createRelease params)
  match W.createRelease s.trace params with
  | .error err =>
    let logFn := if attempt = retries then "error" else "warn"
    (.rejected err,
      (s1.emit (Event.log logFn [err.defaultMessage.toStr ++ " (Attempt " ++
        toString (attempt + 1) ++ " of " ++ toString retries ++ ")"])).emit
        (Event.log logFn [err.message]))
  | .ok response =>
    (.resolved (),
      ((s1.setRuntimeOption "githubReleaseId" response.id).emit
        (Event.log "execution" ["node-github releases#createRelease (success) " ++
          response.location ++ " " ++ response.tag_name ++ " \"" ++ response.name ++ "\""])).emit
        (Event.log "debug" [response.location]))

/-- Function `release(options, remoteUrl, tagName)`.  In the source the object
holding `retries` closes inside `new Promise(...)`, as its second argument,
which a promise ignores: `retry` is called with the attempt function alone and
gets no options.  The constant `retries` only reaches the log lines. -/
def release (W : World) (options : Options) (remoteUrl tagName : String) (s : State) :
    Outcome Unit × State :=
  match parseRepo W remoteUrl with
  | .error e => (.thrown e, s)
  | .ok repo =>
    let version := s.getRuntimeOption "version"
    let s1 := s.emit (Event.log "execution"
      ["node-github releases#createRelease (start)", (repo.get "repository").toStr,
       (repo.get "owner").toStr, (repo.get "project").toStr])
    let s2 := getGithubClient repo s1
    let retries := 3
    if !s2.config.isDryRun then
      retry (createReleaseAttempt W options repo version tagName retries) none s2
    else (.resolved (), s2)

/-- Function `uploadAsset(repo, filePath)`. -/
def uploadAsset (W : World) (repo : Obj) (filePath : String) (s : State) : Outcome Unit × State :=
  let s1 := getGithubClient repo s
  let id := s1.getRuntimeOption "githubReleaseId"
  let name := W.basename filePath
  let params : UploadParams :=
    { owner := repo.get "owner", repo := repo.get "project", id := id,
      filePath := filePath, name := name }
  let s2 := s1.emit (Event.uploadAsset params)
  match W.uploadAsset s1.trace params with
  | .error err => (.rejected err, s2)
  | .ok response =>
    (.resolved (),
      (s2.emit (Event.log "execution"
        ["node-github releases#uploadAsset (success)", response.browser_download_url])).emit
        (Event.log "debug" [response.browser_download_url]))

/-- The batch `Promise.all(files.map(filePath => uploadAsset(repo, filePath)))`: every
upload is issued, in the order of the files; the batch is rejected with the
error of the first file whose upload fails. -/
def uploadAll (W : World) (repo : Obj) : List String → State → Outcome Unit × State
  | [], s => (.resolved (), s)
  | filePath :: rest, s =>
    match uploadAsset W repo filePath s with
    | (.resolved _, s1) => uploadAll W repo rest s1
    | (.rejected e, s1) => (.rejected e, (uploadAll W repo rest s1).2)
    | (.thrown e, s1) => (.rejected e, (uploadAll W repo rest s1).2)

/-- Function `uploadAssets(options, remoteUrl, assets)`. -/
def uploadAssets (W : World) (_options : Options) (remoteUrl assets : String) (s : State) :
    Outcome Unit × State :=
  match parseRepo W remoteUrl with
  | .error e => (.thrown e, s)
  | .ok repo =>
    let s1 := s.emit (Event.log "execution"
      ["node-github releases#uploadAsset (start)", (repo.get "repository").toStr,
       (repo.get "owner").toStr, (repo.get "project").toStr])
    if !s1.config.isDryRun then
      let s2 := s1.emit (Event.glob assets)
      match W.glob s1.trace assets with
      | .error err => (.rejected err, s2)
      | .ok files =>
        let s3 := if files.length = 0 then
            s2.emit (Event.log "execution"
              ["node-github releases#uploadAsset", "No assets found", assets, W.cwd])
          else s2
        uploadAll W repo files s3
    else (.resolved (), s1)

/-! ## Observations on traces -/

/-- Number of `createRelease` calls in a trace. -/
def createReleaseCalls : List Event → Nat
  | [] => 0
  | Event.createRelease _ :: rest => createReleaseCalls rest + 1
  | _ :: rest => createReleaseCalls rest

/-- A call that leaves the process for the remote API or the file system glob:
`createRelease`, `uploadAsset` or `glob`. -/
def Event.isRemoteCall : Event → Bool
  | Event.createRelease _ => true
  | Event.uploadAsset _ => true
  | Event.glob _ => true
  | _ => false

/-! ## A small concrete world for examples -/

/-- Pieces of a text between `/` characters. -/
def splitSlash : List Char → List (List Char)
  | [] => [[]]
  | c :: cs =>
    if c = '/' then [] :: splitSlash cs
    else match splitSlash cs with
      | piece :: pieces => (c :: piece) :: pieces
      | [] => [[c]]

/-- Example URL parser standing in for `parse-github-repo-url`: it accepts the
shape `scheme://host/owner/project` and nothing else. -/
def exampleUrlParser (url : String) : Option (String × String × String) :=
  match splitSlash url.data with
  | [_, [], _, owner, project] => some (String.mk owner, String.mk project, "")
  | _ => none

/-- What the example path parser answers for a text it cannot read as a remote
URL: as `parse-repo` does, it takes it for a local path, with `owner` `null`
and `host` `localhost`. -/
def localPathAnswer (url : String) : Obj :=
  [("remote", Value.str url), ("host", Value.str "localhost"), ("owner", Value.null)]

/-- Example path parser standing in for `parse-repo`: it reads
`scheme://host/owner/project` when the project segment has no `.`, and
answers `localPathAnswer` for everything else, a dotted project segment
included. -/
def examplePathParser (url : String) : Obj :=
  match splitSlash url.data with
  | [_, [], host, owner, project] =>
    if project.contains '.' then localPathAnswer url
    else
      [("remote", Value.str url), ("host", Value.str (String.mk host)),
       ("repository", Value.str (String.mk (owner ++ '/' :: project))),
       ("owner", Value.str (String.mk owner)), ("project", Value.str (String.mk project))]
  | _ => localPathAnswer url

/-- Example world: `exec` answers commands, `api` answers `createRelease`, a
template has its first `%s` replaced by the version. -/
def exampleWorld (exec : String → Except Err (Option CommandResult))
    (api : Except Err ReleaseResponse) : World :=
  { run := fun _ command _ => exec command
    format := fun template version => jsReplaceFirst template "%s" version.toStr
    repoUrlParser := exampleUrlParser
    repoPathParser := examplePathParser
    basename := fun filePath => filePath
    glob := fun _ _ => .ok []
    createRelease := fun _ _ => api
    uploadAsset := fun _ _ => .ok { browser_download_url := "" }
    cwd := "/" }

/-- Example state: nothing written, nothing done yet. -/
def exampleState (isDryRun : Bool) : State :=
  { config := { isForce := false, isDryRun := isDryRun, isVerbose := false, isDebug := false,
                runtime := [] }
    githubClient := none
    trace := [] }

/-- Example options. -/
def exampleOptions (changelogCommand : Option String) : Options :=
  { changelogCommand := changelogCommand
    src := { tagName := "v%s" }
    github := { releaseName := "Release %s", preRelease := Value.bool false,
                draft := Value.bool false } }

/-- An executor failure. -/
def exampleErr : Err := { message := "exit code 1" }

/-- Example executor on which `git commit` fails and every other command
succeeds. -/
def commitFails (command : String) : Except Err (Option CommandResult) :=
  if "git commit".data.isPrefixOf command.data then .error exampleErr
  else .ok (some { output := "" })

/-- Example executor on which `git show-ref` fails, as it does for a tag that
does not exist, and every other command prints `changes`. -/
def tagMissing (command : String) : Except Err (Option CommandResult) :=
  if "!git show-ref".data.isPrefixOf command.data then .error exampleErr
  else .ok (some { output := "changes" })

/-- Example executor on which every command prints `changes`. -/
def allSucceed (_command : String) : Except Err (Option CommandResult) :=
  .ok (some { output := "changes" })

/-- Example state in which the previous version `1.0.0` has been recorded. -/
def exampleStateAfter : State :=
  (exampleState false).setRuntimeOption "previousVersion" (Value.str "1.0.0")

/-! ## Theorems -/

theorem getGithubClient_config (repo : Obj) (s : State) :
    (getGithubClient repo s).config = s.config := by
  unfold getGithubClient
  cases h : s.githubClient <;> simp [State.emit]

theorem createReleaseCalls_append (a b : List Event) :
    createReleaseCalls (a ++ b) = createReleaseCalls a + createReleaseCalls b := by
  induction a with
  | nil => simp [createReleaseCalls]
  | cons e rest ih =>
    cases e <;> simp [createReleaseCalls, ih]
    omega

theorem getGithubClient_calls (repo : Obj) (s : State) :
    createReleaseCalls (getGithubClient repo s).trace = createReleaseCalls s.trace := by
  unfold getGithubClient
  cases h : s.githubClient <;>
    simp [State.emit, createReleaseCalls_append, createReleaseCalls]

/-- A failing attempt rejects and adds exactly one `createRelease` call. -/
theorem createReleaseAttempt_fail (W : World) (options : Options) (repo : Obj) (version : Value)
    (tagName : String) (retries attempt : Nat) (s : State)
    (hfail : ∀ t p, ∃ e, W.createRelease t p = .error e) :
    ∃ e s1, createReleaseAttempt W options repo version tagName retries attempt s =
        (.rejected e, s1) ∧
      createReleaseCalls s1.trace = createReleaseCalls s.trace + 1 := by
  unfold createReleaseAttempt
  obtain ⟨e, he⟩ := hfail s.trace
    { owner := repo.get "owner", repo := repo.get "project", tag_name := W.format tagName version,
      name := W.format options.github.releaseName version,
      body := s.getRuntimeOption "changelog", prerelease := options.github.preRelease,
      draft := options.github.draft }
  simp only [he]
  exact ⟨e, _, rfl, by simp [State.emit, createReleaseCalls_append, createReleaseCalls]⟩

/-- When every attempt rejects, the loop makes one attempt more than it has
retries left, then rejects. -/
theorem retryFrom_all_fail (fn : Nat → State → Outcome Unit × State)
    (hfn : ∀ a s, ∃ e s1, fn a s = (.rejected e, s1) ∧
      createReleaseCalls s1.trace = createReleaseCalls s.trace + 1)
    (left attempt : Nat) (s : State) :
    ∃ e s1, retryFrom fn left attempt s = (.rejected e, s1) ∧
      createReleaseCalls s1.trace = createReleaseCalls s.trace + (left + 1) := by
  induction left generalizing attempt s with
  | zero =>
    obtain ⟨e, s1, h1, h2⟩ := hfn attempt s
    exact ⟨e, s1, by simp [retryFrom, h1], by simpa using h2⟩
  | succ n ih =>
    obtain ⟨e, s1, h1, h2⟩ := hfn attempt s
    obtain ⟨e2, s2, h3, h4⟩ := ih (attempt + 1) s1
    exact ⟨e2, s2, by simp [retryFrom, h1, h3], by omega⟩

/-- C1, evaluated on the code: outside dry-run, when `createRelease` fails on
every attempt, `release` rejects after calling `createRelease` 11 times, not 3
times: `retry` receives no options, so it makes the first try and its default
10 retries. -/
theorem release_all_attempts_fail (W : World) (options : Options) (remoteUrl tagName : String)
    (s : State) (owner project branch : String)
    (hparse : W.repoUrlParser remoteUrl = some (owner, project, branch))
    (hdry : s.config.isDryRun = false)
    (hfail : ∀ t p, ∃ e, W.createRelease t p = .error e) :
    ∃ e s1, release W options remoteUrl tagName s = (.rejected e, s1) ∧
      createReleaseCalls s1.trace = createReleaseCalls s.trace + 11 := by
  unfold release parseRepo
  simp only [hparse]
  have hcfg : ∀ repo ev, (getGithubClient repo (s.emit ev)).config.isDryRun = false := by
    intro repo ev
    rw [getGithubClient_config]
    simpa [State.emit] using hdry
  simp only [hcfg, Bool.not_false, if_true, retry, defaultRetries]
  obtain ⟨e, s1, h1, h2⟩ := retryFrom_all_fail _
    (fun a st => createReleaseAttempt_fail W options _ _ tagName 3 a st hfail) 10 1 _
  refine ⟨e, s1, h1, ?_⟩
  rw [h2, getGithubClient_calls]
  simp [State.emit, createReleaseCalls_append, createReleaseCalls]

/-- Instance of C1 in the example world with an API that always fails. -/
theorem release_all_attempts_fail_witness :
    ∃ e s1, release (exampleWorld (fun _ => .ok none) (.error exampleErr)) (exampleOptions none)
        "https://github.com/webpro/release-it" "v%s" (exampleState false) = (.rejected e, s1) ∧
      createReleaseCalls s1.trace = createReleaseCalls (exampleState false).trace + 11 :=
  release_all_attempts_fail (exampleWorld (fun _ => .ok none) (.error exampleErr))
    (exampleOptions none) "https://github.com/webpro/release-it" "v%s" (exampleState false)
    "webpro" "release-it" "" (by decide) rfl (fun _ _ => ⟨exampleErr, rfl⟩)

theorem getGithubClient_trace (repo : Obj) (s : State) :
    ∃ evs, (getGithubClient repo s).trace = s.trace ++ evs ∧
      ∀ e ∈ evs, e.isRemoteCall = false := by
  unfold getGithubClient
  cases h : s.githubClient with
  | some c => exact ⟨[], by simp, by simp⟩
  | none =>
    refine ⟨[_, _], by simp only [State.emit, List.append_assoc]; rfl, ?_⟩
    intro e he
    simp at he
    rcases he with rfl | rfl <;> rfl

/-- C2 (amended): under dry-run `release` issues no `createRelease` call and
`uploadAssets` issues no glob lookup and no `uploadAsset` call, for every
options, remote URL and asset pattern; and whenever the URL parser accepts the
remote URL, both resolve. -/
theorem dry_run_issues_no_remote_call (W : World) (options : Options)
    (remoteUrl tagName assets : String) (s : State) (hdry : s.config.isDryRun = true) :
    (∃ evs, (release W options remoteUrl tagName s).2.trace = s.trace ++ evs ∧
      ∀ e ∈ evs, e.isRemoteCall = false) ∧
    (∃ evs, (uploadAssets W options remoteUrl assets s).2.trace = s.trace ++ evs ∧
      ∀ e ∈ evs, e.isRemoteCall = false) ∧
    (∀ owner project branch, W.repoUrlParser remoteUrl = some (owner, project, branch) →
      (release W options remoteUrl tagName s).1 = .resolved () ∧
      (uploadAssets W options remoteUrl assets s).1 = .resolved ()) := by
  have hcfg : ∀ repo ev, (getGithubClient repo (s.emit ev)).config.isDryRun = true := by
    intro repo ev
    rw [getGithubClient_config]
    simpa [State.emit] using hdry
  have hcfg2 : ∀ ev, (s.emit ev).config.isDryRun = true := by
    intro ev
    simpa [State.emit] using hdry
  refine ⟨?_, ?_, ?_⟩
  · unfold release
    cases hp : parseRepo W remoteUrl with
    | error e => exact ⟨[], by simp, by simp⟩
    | ok repo =>
      simp only [hcfg, Bool.not_true, Bool.false_eq_true, if_false]
      obtain ⟨evs, h1, h2⟩ := getGithubClient_trace repo (s.emit (Event.log "execution"
        ["node-github releases#createRelease (start)", (repo.get "repository").toStr,
          (repo.get "owner").toStr, (repo.get "project").toStr]))
      refine ⟨_ :: evs, by rw [h1]; simp only [State.emit, List.append_assoc]; rfl, ?_⟩
      intro e he
      simp at he
      rcases he with rfl | he
      · rfl
      · exact h2 e he
  · unfold uploadAssets
    cases hp : parseRepo W remoteUrl with
    | error e => exact ⟨[], by simp, by simp⟩
    | ok repo =>
      simp only [hcfg2, Bool.not_true, Bool.false_eq_true, if_false]
      refine ⟨[_], by simp only [State.emit]; rfl, ?_⟩
      intro e he
      simp at he
      subst he
      rfl
  · intro owner project branch hparse
    constructor
    · unfold release parseRepo
      simp only [hparse, hcfg, Bool.not_true, Bool.false_eq_true, if_false]
    · unfold uploadAssets parseRepo
      simp only [hparse, hcfg2, Bool.not_true, Bool.false_eq_true, if_false]

/-- Instance of C2 (amended) in the example world: a dry run on a GitHub URL
resolves and leaves no remote call in the trace. -/
theorem dry_run_issues_no_remote_call_witness :
    (release (exampleWorld (fun _ => .ok none) (.error exampleErr)) (exampleOptions none)
        "https://github.com/webpro/release-it" "v%s" (exampleState true)).1 = .resolved () ∧
    (uploadAssets (exampleWorld (fun _ => .ok none) (.error exampleErr)) (exampleOptions none)
        "https://github.com/webpro/release-it" "dist/*.zip" (exampleState true)).1 = .resolved () :=
  (dry_run_issues_no_remote_call (exampleWorld (fun _ => .ok none) (.error exampleErr))
    (exampleOptions none) "https://github.com/webpro/release-it" "v%s" "dist/*.zip"
    (exampleState true) rfl).2.2 "webpro" "release-it" "" (by decide)

/-- C2 as stated fails: under dry-run, on a remote URL the URL parser does not
accept, `release` and `uploadAssets` throw instead of resolving. -/
theorem dry_run_throws_on_unparsed_url :
    (exampleState true).config.isDryRun = true ∧
    (release (exampleWorld (fun _ => .ok none) (.error exampleErr)) (exampleOptions none)
        "origin" "v%s" (exampleState true)).1 = .thrown (typeError "replace") ∧
    (uploadAssets (exampleWorld (fun _ => .ok none) (.error exampleErr)) (exampleOptions none)
        "origin" "dist/*.zip" (exampleState true)).1 = .thrown (typeError "replace") := by
  refine ⟨rfl, ?_, ?_⟩ <;> decide

/-- C3, evaluated on the code: when the `git describe --tags --abbrev=0`
command fails, `getLatestTag` rejects with the executor's error; it does not
resolve with `null`. -/
theorem getLatestTag_rejects_when_describe_fails (W : World) (s : State) (e : Err)
    (hfail : W.run s.trace "!git describe --tags --abbrev=0" RunOpts.readOnly = .error e) :
    (getLatestTag W s).1 = .rejected e ∧
    ∀ v, (getLatestTag W s).1 ≠ .resolved v := by
  unfold getLatestTag run
  simp [hfail]

/-- Instance of C3 in the example world with an executor that always fails. -/
theorem getLatestTag_rejects_when_describe_fails_witness :
    (getLatestTag (exampleWorld (fun _ => .error exampleErr) (.error exampleErr))
      (exampleState false)).1 = .rejected exampleErr :=
  (getLatestTag_rejects_when_describe_fails
    (exampleWorld (fun _ => .error exampleErr) (.error exampleErr)) (exampleState false)
    exampleErr rfl).1

/-- What `getLatestTag` resolves with when the command succeeds: the trimmed
output, or `null` for an empty output. -/
theorem getLatestTag_of_output (W : World) (s : State) (r : CommandResult)
    (hok : W.run s.trace "!git describe --tags --abbrev=0" RunOpts.readOnly = .ok (some r)) :
    (getLatestTag W s).1 =
      .resolved (if r.output ≠ "" then some (jsTrim r.output) else none) := by
  unfold getLatestTag run
  simp [hok]

/-- C4, evaluated on the code: when `git add` fails, `stage` resolves but
`stageDir` rejects with the executor's error. -/
theorem stageDir_rejects_when_add_fails (W : World) (file : StageArg) (baseDir : Option String)
    (s : State) (e : Err) (hfail : ∀ command, W.run s.trace command RunOpts.none = .error e) :
    (stage W file s).1 = .resolved none ∧ (stageDir W baseDir s).1 = .rejected e := by
  constructor
  · unfold stage run
    by_cases h : file.truthy <;> simp [h, hfail]
  · unfold stageDir run
    simp [hfail]

/-- Instance of C4 in the example world with an executor that always fails. -/
theorem stageDir_rejects_when_add_fails_witness :
    (stage (exampleWorld (fun _ => .error exampleErr) (.error exampleErr))
      (StageArg.str "package.json") (exampleState false)).1 = .resolved none ∧
    (stageDir (exampleWorld (fun _ => .error exampleErr) (.error exampleErr))
      (some ".") (exampleState false)).1 = .rejected exampleErr :=
  stageDir_rejects_when_add_fails (exampleWorld (fun _ => .error exampleErr) (.error exampleErr))
    (StageArg.str "package.json") (some ".") (exampleState false) exampleErr (fun _ => rfl)

/-- C5: when the commit command fails, `commit` resolves; the following `tag`
issues the command `git tag [--force ]--annotate --message="<annotation>" <tag>`
built from the same flag, version and templates whatever the commit did; if
that command succeeds `tag` resolves and `tag_set` reads `true`; if it fails
`tag` still resolves and the option store is left as it was. -/
theorem commit_failure_then_tag (W : World) (path message tagName annotation : String)
    (version : Value) (s : State) (e : Err)
    (hcommit : W.run s.trace (commitCommand W s.config.isForce message version)
      (RunOpts.arg path) = .error e) :
    (commit W path message version s).1 = .resolved none ∧
    (∀ W2 : World, W2.format = W.format →
      ∃ logs, (tag W2 version tagName annotation (commit W2 path message version s).2).2.trace =
        (commit W2 path message version s).2.trace ++
          Event.run ("git tag " ++ (if s.config.isForce then "--force " else "") ++
            "--annotate --message=\"" ++ W.format annotation version ++ "\" " ++
            W.format tagName version) RunOpts.none :: logs) ∧
    (∀ r, W.run (commit W path message version s).2.trace
        (tagCommand W s.config.isForce version tagName annotation) RunOpts.none = .ok r →
      (tag W version tagName annotation (commit W path message version s).2).1 = .resolved () ∧
      (tag W version tagName annotation (commit W path message version s).2).2.getRuntimeOption
        "tag_set" = Value.bool true) ∧
    (∀ (s2 : State) (e2 : Err), W.run s2.trace
        (tagCommand W s2.config.isForce version tagName annotation) RunOpts.none = .error e2 →
      (tag W version tagName annotation s2).1 = .resolved () ∧
      (tag W version tagName annotation s2).2.config.runtime = s2.config.runtime) := by
  have hcfg : ∀ W2 : World, (commit W2 path message version s).2.config = s.config := by
    intro W2
    unfold commit run
    cases W2.run s.trace (commitCommand W2 s.config.isForce message version) (RunOpts.arg path) <;>
      simp [State.emit]
  refine ⟨?_, ?_, ?_, ?_⟩
  · unfold commit run
    simp [hcommit]
  · intro W2 hfmt
    unfold tag run
    rw [hcfg W2]
    simp only [tagCommand, hfmt]
    cases W2.run (commit W2 path message version s).2.trace
        ("git tag " ++ (if s.config.isForce then "--force " else "") ++
          "--annotate --message=\"" ++ W.format annotation version ++ "\" " ++
          W.format tagName version) RunOpts.none with
    | ok r => exact ⟨[], by simp [State.emit, State.setRuntimeOption]⟩
    | error e2 => exact ⟨[_], by simp only [State.emit, List.append_assoc]; rfl⟩
  · intro r hr
    unfold tag run
    rw [hcfg W, hr]
    simp [State.setRuntimeOption, State.getRuntimeOption, Obj.get, State.emit, List.lookup]
  · intro s2 e2 he2
    unfold tag run
    rw [he2]
    simp [State.emit]

/-- Instance of C5 in the example world where `git commit` fails and `git tag`
succeeds: the pair resolves and `tag_set` reads `true`. -/
theorem commit_failure_then_tag_witness :
    (commit (exampleWorld commitFails (.error exampleErr)) "." "Release %s" (Value.str "2.0.0")
      (exampleState false)).1 = .resolved none ∧
    (tag (exampleWorld commitFails (.error exampleErr)) (Value.str "2.0.0") "v%s" "Release %s"
      (commit (exampleWorld commitFails (.error exampleErr)) "." "Release %s"
        (Value.str "2.0.0") (exampleState false)).2).1 = .resolved () ∧
    (tag (exampleWorld commitFails (.error exampleErr)) (Value.str "2.0.0") "v%s" "Release %s"
      (commit (exampleWorld commitFails (.error exampleErr)) "." "Release %s"
        (Value.str "2.0.0") (exampleState false)).2).2.getRuntimeOption "tag_set" =
      Value.bool true :=
  have h := commit_failure_then_tag (exampleWorld commitFails (.error exampleErr)) "."
    "Release %s" "v%s" "Release %s" (Value.str "2.0.0") (exampleState false) exampleErr
    rfl
  ⟨h.1, h.2.2.1 (some { output := "" }) rfl⟩

/-- C7, evaluated on the code: with no changelog command configured (absent or
empty), `getChangelog` resolves with `undefined`, not with its `options`. -/
theorem getChangelog_without_command (W : World) (src : SrcOptions) (github : GithubOptions)
    (s : State) :
    getChangelog W { changelogCommand := none, src := src, github := github } s =
      (.resolved none, s) ∧
    getChangelog W { changelogCommand := some "", src := src, github := github } s =
      (.resolved none, s) ∧
    (getChangelog W { changelogCommand := none, src := src, github := github } s).1 ≠
      .resolved (some { changelogCommand := none, src := src, github := github }) := by
  refine ⟨rfl, ?_, ?_⟩
  · simp [getChangelog]
  · simp [getChangelog]

theorem dotsToDashes_ne (project : String) (hdot : '.' ∈ project.data) :
    dotsToDashes project ≠ project := by
  intro h
  have h2 : (dotsToDashes project).data = project.data := by rw [h]
  simp only [dotsToDashes] at h2
  have h3 : '.' ∈ project.data.map (fun c => if c = '.' then '-' else c) := by rw [h2]; exact hdot
  rw [List.mem_map] at h3
  obtain ⟨c, _, hc⟩ := h3
  by_cases hcd : c = '.'
  · rw [if_pos hcd] at hc
    exact absurd hc (by decide)
  · rw [if_neg hcd] at hc
    exact hcd hc

/-- C8: for every remote URL whose project name, as the URL parser extracts it,
contains `.`, `parseRepo` returns an identity whose `project` is that name
exactly, not its normalized form, and whose `remote` is the URL given. -/
theorem parseRepo_keeps_project (W : World) (remoteUrl owner project branch : String)
    (hparse : W.repoUrlParser remoteUrl = some (owner, project, branch))
    (hdot : '.' ∈ project.data) :
    ∃ repo, parseRepo W remoteUrl = .ok repo ∧
      repo.get "project" = Value.str project ∧
      repo.get "project" ≠ Value.str (dotsToDashes project) ∧
      repo.get "remote" = Value.str remoteUrl := by
  unfold parseRepo
  simp only [hparse]
  refine ⟨_, rfl, ?_, ?_, ?_⟩
  · simp [extend, Obj.get, List.lookup]
  · have hne := dotsToDashes_ne project hdot
    simp only [extend, Obj.get, List.cons_append, List.lookup, beq_self_eq_true]
    intro h
    exact hne (Value.str.inj h).symm
  · simp [extend, Obj.get, List.lookup]

/-- Instance of C8 in the example world for the project `my.project`. -/
theorem parseRepo_keeps_project_witness :
    ∃ repo, parseRepo (exampleWorld (fun _ => .ok none) (.error exampleErr))
        "https://github.com/webpro/my.project" = .ok repo ∧
      repo.get "project" = Value.str "my.project" ∧
      repo.get "project" ≠ Value.str (dotsToDashes "my.project") ∧
      repo.get "remote" = Value.str "https://github.com/webpro/my.project" :=
  parseRepo_keeps_project (exampleWorld (fun _ => .ok none) (.error exampleErr))
    "https://github.com/webpro/my.project" "webpro" "my.project" "" (by decide) (by decide)

theorem getSubstitutionFrom_plain (matched before after rep : List Char) (h : '$' ∉ rep) :
    getSubstitutionFrom matched before after false rep = rep := by
  induction rep with
  | nil => rfl
  | cons c rest ih =>
    have hc : c ≠ '$' := fun hc => h (by simp [hc])
    have hr : '$' ∉ rest := fun hr => h (by simp [hr])
    simp [getSubstitutionFrom, hc, ih hr]

theorem splitFirst_of_first (pat pre post : List Char) (hpat : pat ≠ [])
    (hfirst : ∀ a b, pre ++ pat ++ post = a ++ pat ++ b → pre.length ≤ a.length) :
    splitFirst pat (pre ++ pat ++ post) = some (pre, post) := by
  induction pre with
  | nil =>
    obtain ⟨p, ps, rfl⟩ := List.exists_cons_of_ne_nil hpat
    have hpre : (p :: ps).isPrefixOf (p :: ps ++ post) = true :=
      List.isPrefixOf_iff_prefix.mpr (List.prefix_append _ _)
    simp only [List.nil_append, List.cons_append] at hpre ⊢
    simp only [splitFirst, hpre, if_true]
    simp
  | cons c pre ih =>
    have hnot : pat.isPrefixOf (c :: (pre ++ pat ++ post)) = false := by
      cases hp : pat.isPrefixOf (c :: (pre ++ pat ++ post)) with
      | false => rfl
      | true =>
        obtain ⟨b, hb⟩ := List.isPrefixOf_iff_prefix.mp hp
        have := hfirst [] b (by simpa using hb.symm)
        simp at this
    have ih2 := ih (fun a b hab => by
      have := hfirst (c :: a) b (by simp only [List.cons_append, hab])
      simpa using this)
    rw [List.cons_append, List.cons_append, splitFirst, hnot, ih2]
    simp

theorem first_of_not_infix (pat pre post : List Char) (hpat : pat ≠ [])
    (h : ¬ pat <:+: pre ++ pat.dropLast) :
    ∀ a b, pre ++ pat ++ post = a ++ pat ++ b → pre.length ≤ a.length := by
  intro a b hab
  by_contra hlt
  push_neg at hlt
  apply h
  have h1 : a ++ pat <+: pre ++ pat ++ post := ⟨b, hab.symm⟩
  have h2 : pre ++ pat.dropLast <+: pre ++ pat ++ post := by
    rw [List.append_assoc]
    refine (List.prefix_append_right_inj pre).mpr ?_
    refine ⟨[pat.getLast hpat] ++ post, ?_⟩
    rw [← List.append_assoc, List.dropLast_append_getLast]
  have hlen : (a ++ pat).length ≤ (pre ++ pat.dropLast).length := by
    have : 0 < pat.length := List.length_pos.mpr hpat
    simp only [List.length_append, List.length_dropLast]
    omega
  have h3 := List.prefix_of_prefix_length_le h1 h2 hlen
  obtain ⟨t, ht⟩ := h3
  exact ⟨a, t, ht⟩

/-- Replacing the first occurrence by a replacement without `$`. -/
theorem jsReplaceFirst_first (text pat rep pre post : String) (hpat : pat.data ≠ [])
    (htext : text = pre ++ pat ++ post)
    (hfirst : ∀ a b : List Char, text.data = a ++ pat.data ++ b → pre.data.length ≤ a.length)
    (hrep : '$' ∉ rep.data) :
    jsReplaceFirst text pat rep = pre ++ rep ++ post := by
  have hdata : text.data = pre.data ++ pat.data ++ post.data := by rw [htext]; simp
  have hsplit := splitFirst_of_first pat.data pre.data post.data hpat
    (fun a b hab => hfirst a b (by rw [hdata, hab]))
  unfold jsReplaceFirst
  rw [hdata, hsplit]
  simp only [getSubstitution, getSubstitutionFrom_plain _ _ _ _ hrep]
  apply String.ext
  simp

/-- C6 (amended): when the changelog command contains the placeholder, the
command `getChangelog` executes is the configured command with the first
occurrence of the placeholder replaced by `<previousTag>...HEAD` when the tag
exists (for a tag without `$`) and by the empty string when it does not; the
text after that occurrence is executed as written; and when the command
succeeds, `getChangelog` resolves with `options` and the output is stored
under `changelog`. -/
theorem getChangelog_replaces_first_rev_range (W : World) (options : Options) (s : State)
    (changelogCommand pre post previousTag : String)
    (hcmd : options.changelogCommand = some changelogCommand)
    (hsplit : changelogCommand = pre ++ revRange ++ post)
    (hfirst : ∀ a b : List Char, changelogCommand.data = a ++ revRange.data ++ b →
      pre.data.length ≤ a.length)
    (hprev : previousTag = W.format options.src.tagName (s.getRuntimeOption "previousVersion"))
    (hdollar : (tagExists W previousTag s).1 = true → '$' ∉ previousTag.data) :
    ∃ logs,
      (getChangelog W options s).2.trace = (tagExists W previousTag s).2.trace ++
        Event.run (pre ++ (if (tagExists W previousTag s).1 then previousTag ++ "...HEAD" else "")
          ++ post) RunOpts.readOnly :: logs ∧
      ∀ result, W.run (tagExists W previousTag s).2.trace
          (pre ++ (if (tagExists W previousTag s).1 then previousTag ++ "...HEAD" else "") ++ post)
          RunOpts.readOnly = .ok (some result) →
        (getChangelog W options s).1 = .resolved (some options) ∧
        (getChangelog W options s).2.getRuntimeOption "changelog" = Value.str result.output := by
  have hdata : changelogCommand.data = pre.data ++ revRange.data ++ post.data := by
    rw [hsplit]; simp
  have hfound := splitFirst_of_first revRange.data pre.data post.data (by decide)
    (fun a b hab => hfirst a b (by rw [hdata, hab]))
  have hne : changelogCommand ≠ "" := by
    intro h
    rw [h] at hdata
    have hlen := congrArg List.length hdata
    simp [revRange] at hlen
    omega
  have hrep : '$' ∉ (if (tagExists W previousTag s).1 then previousTag ++ "...HEAD" else "").data := by
    cases h : (tagExists W previousTag s).1 with
    | false => simp
    | true =>
      have h1 := hdollar h
      simp only [if_true, String.data_append, List.mem_append, not_or]
      exact ⟨h1, by decide⟩
  have hreplace := jsReplaceFirst_first changelogCommand revRange
    (if (tagExists W previousTag s).1 then previousTag ++ "...HEAD" else "") pre post
    (by decide) hsplit hfirst hrep
  subst hprev
  unfold getChangelog
  simp only [hcmd, hne, ne_eq, not_false_eq_true, if_true, hdata, hfound, Option.isSome_some]
  rw [hreplace]
  unfold runChangelogCommand run
  cases hrun : W.run (tagExists W (W.format options.src.tagName
      (s.getRuntimeOption "previousVersion")) s).2.trace
      (pre ++ (if (tagExists W (W.format options.src.tagName
        (s.getRuntimeOption "previousVersion")) s).1
        then W.format options.src.tagName (s.getRuntimeOption "previousVersion") ++ "...HEAD"
        else "") ++ post) RunOpts.readOnly with
  | error e =>
    exact ⟨[_, _], by simp only [State.emit, List.append_assoc]; rfl,
      by intro result hres; cases hres⟩
  | ok r =>
    cases r with
    | none =>
      by_cases hv : (tagExists W (W.format options.src.tagName
        (s.getRuntimeOption "previousVersion")) s).2.config.isVerbose = true
      · exact ⟨[_, _, _], by simp only [State.emit, hv, if_true, List.append_assoc]; rfl,
          by intro result hres; cases hres⟩
      · exact ⟨[_, _], by simp only [State.emit, hv, Bool.false_eq_true, if_false, List.append_assoc]; rfl,
          by intro result hres; cases hres⟩
    | some r =>
      by_cases hv : (tagExists W (W.format options.src.tagName
        (s.getRuntimeOption "previousVersion")) s).2.config.isVerbose = true
      · exact ⟨[_], by simp only [State.emit, hv, if_true, State.setRuntimeOption,
            List.append_assoc]; rfl,
          by
            intro result hres
            cases hres
            simp [State.emit, State.setRuntimeOption, State.getRuntimeOption, Obj.get,
              List.lookup]⟩
      · exact ⟨[], by simp only [State.emit, hv, Bool.false_eq_true, if_false, State.setRuntimeOption],
          by
            intro result hres
            cases hres
            simp [State.emit, State.setRuntimeOption, State.getRuntimeOption, Obj.get,
              List.lookup]⟩

/-- Instance of C6 (amended) in the example world: the tag `v1.0.0` exists, the
command `git log [REV_RANGE]` succeeds, and its output is stored. -/
theorem getChangelog_replaces_first_rev_range_witness :
    (getChangelog (exampleWorld allSucceed (.error exampleErr))
      (exampleOptions (some "git log [REV_RANGE]")) exampleStateAfter).1 =
      .resolved (some (exampleOptions (some "git log [REV_RANGE]"))) ∧
    (getChangelog (exampleWorld allSucceed (.error exampleErr))
      (exampleOptions (some "git log [REV_RANGE]")) exampleStateAfter).2.getRuntimeOption
      "changelog" = Value.str "changes" :=
  (getChangelog_replaces_first_rev_range (exampleWorld allSucceed (.error exampleErr))
    (exampleOptions (some "git log [REV_RANGE]")) exampleStateAfter
    "git log [REV_RANGE]" "git log " "" "v1.0.0" rfl (by decide)
    (fun a b h => first_of_not_infix revRange.data "git log ".data "".data (by decide)
      (by decide) a b h)
    (by decide) (fun _ => by decide)).elim
    (fun _ h => h.2 { output := "changes" } rfl)

/-- C6 as stated fails: with the placeholder twice in the command and no
previous tag in the repository, the command executed still contains the
placeholder. -/
theorem getChangelog_leaves_second_rev_range :
    (getChangelog (exampleWorld tagMissing (.error exampleErr))
      (exampleOptions (some "git log [REV_RANGE] && git diff --stat [REV_RANGE]"))
      exampleStateAfter).2.trace =
      [Event.run "!git show-ref --tags --quiet --verify -- \"refs/tags/v1.0.0\"" RunOpts.readOnly,
       Event.run "git log  && git diff --stat [REV_RANGE]" RunOpts.readOnly] ∧
    revRange.data <:+: "git log  && git diff --stat [REV_RANGE]".data := by
  constructor <;> decide

/-- C9, evaluated on the code: `repository` is built from the owner the URL
parser reports, while the `owner` field is whatever the path parser reads from
the URL after the first occurrence of the project name has been rewritten.
Whenever that field, as text, differs from the URL parser's owner (a string
that differs, or `null`), `repository` is not `owner + "/" + project` of the
identity. -/
theorem parseRepo_repository_differs_from_owner_project (W : World)
    (remoteUrl owner project branch : String) (pathOwner : Value)
    (hparse : W.repoUrlParser remoteUrl = some (owner, project, branch))
    (hpath : (W.repoPathParser (jsReplaceFirst remoteUrl project (dotsToDashes project))).get
      "owner" = pathOwner)
    (hne : pathOwner.toStr ≠ owner) :
    ∃ repo, parseRepo W remoteUrl = .ok repo ∧
      repo.get "owner" = pathOwner ∧
      repo.get "project" = Value.str project ∧
      repo.get "repository" = Value.str (owner ++ "/" ++ project) ∧
      repo.get "repository" ≠
        Value.str ((repo.get "owner").toStr ++ "/" ++ (repo.get "project").toStr) := by
  unfold parseRepo
  simp only [hparse]
  have hrepo : ∀ o : Obj, (extend o [("project", Value.str project),
      ("remote", Value.str remoteUrl), ("repository", Value.str (owner ++ "/" ++ project))]).get
      "repository" = Value.str (owner ++ "/" ++ project) := by
    intro o
    simp [extend, Obj.get, List.lookup]
  have hproj : ∀ o : Obj, (extend o [("project", Value.str project),
      ("remote", Value.str remoteUrl), ("repository", Value.str (owner ++ "/" ++ project))]).get
      "project" = Value.str project := by
    intro o
    simp [extend, Obj.get, List.lookup]
  have hown : ∀ o : Obj, (extend o [("project", Value.str project),
      ("remote", Value.str remoteUrl), ("repository", Value.str (owner ++ "/" ++ project))]).get
      "owner" = o.get "owner" := by
    intro o
    simp [extend, Obj.get, List.lookup]
  refine ⟨_, rfl, ?_, hproj _, hrepo _, ?_⟩
  · rw [hown, hpath]
  · rw [hrepo, hown, hproj, hpath]
    intro h
    have h2 := congrArg String.data (Value.str.inj h)
    simp only [String.data_append, Value.toStr] at h2
    have h3 := List.append_cancel_right (List.append_cancel_right h2)
    exact hne (String.ext h3).symm

/-- Instance of C9 in the example world: for `https://github.com/a.b/a.b` the
path parser is given `https://github.com/a-b/a.b`, whose project segment still
has its dot; it cannot read it and answers `owner` `null`, so `repository` is
`a.b/a.b` while `owner + "/" + project` of the identity is `null/a.b`. -/
theorem parseRepo_repository_differs_from_owner_project_witness :
    jsReplaceFirst "https://github.com/a.b/a.b" "a.b" (dotsToDashes "a.b") =
      "https://github.com/a-b/a.b" ∧
    ∃ repo, parseRepo (exampleWorld allSucceed (.error exampleErr))
        "https://github.com/a.b/a.b" = .ok repo ∧
      repo.get "owner" = Value.null ∧
      repo.get "project" = Value.str "a.b" ∧
      repo.get "repository" = Value.str ("a.b" ++ "/" ++ "a.b") ∧
      repo.get "repository" ≠
        Value.str ((repo.get "owner").toStr ++ "/" ++ (repo.get "project").toStr) :=
  ⟨by decide,
    parseRepo_repository_differs_from_owner_project (exampleWorld allSucceed (.error exampleErr))
      "https://github.com/a.b/a.b" "a.b" "a.b" "" Value.null (by decide) (by decide)
      (by decide)⟩

theorem matchCommitRef_none (l : List Char) (h : '#' ∉ l) : matchCommitRef l = none := by
  induction l with
  | nil => rfl
  | cons c cs ih =>
    have hc : c ≠ '#' := fun hc => h (by simp [hc])
    have hcs : '#' ∉ cs := fun hcs => h (by simp [hcs])
    simp [matchCommitRef, hc, ih hcs]

theorem matchCommitRef_suffix (url branch : List Char) (hurl : '#' ∉ url) (hbranch : branch ≠ [])
    (hline : ∀ c ∈ branch, isLineTerminator c = false) :
    matchCommitRef (url ++ '#' :: branch) = some ('#' :: branch) := by
  induction url with
  | nil =>
    have hall : branch.all (fun d => !isLineTerminator d) = true := by
      simp only [List.all_eq_true, Bool.not_eq_true']
      exact hline
    have hemp : branch.isEmpty = false := by
      cases branch with
      | nil => exact absurd rfl hbranch
      | cons _ _ => rfl
    simp [matchCommitRef, hall, hemp]
  | cons c cs ih =>
    have hc : c ≠ '#' := fun hc => hurl (by simp [hc])
    have hcs : '#' ∉ cs := fun hcs => hurl (by simp [hcs])
    simp [matchCommitRef, hc, ih hcs]

theorem splitFirst_none (pat text : List Char) (h : ¬ pat <:+: text) : splitFirst pat text = none := by
  induction text with
  | nil =>
    have hp : pat ≠ [] := fun hp => h (by simp [hp])
    simp [splitFirst, hp]
  | cons c cs ih =>
    have h1 : pat.isPrefixOf (c :: cs) = false := by
      cases hp : pat.isPrefixOf (c :: cs) with
      | false => rfl
      | true => exact absurd (List.isPrefixOf_iff_prefix.mp hp).isInfix h
    have h2 : ¬ pat <:+: cs := fun hi => h (hi.trans (List.suffix_cons c cs).isInfix)
    simp [splitFirst, h1, ih h2]

theorem first_hash (url branch a b : List Char) (hurl : '#' ∉ url)
    (hab : url ++ '#' :: branch ++ [] = a ++ '#' :: branch ++ b) : url.length ≤ a.length := by
  induction url generalizing a with
  | nil => simp
  | cons c cs ih =>
    have hc : c ≠ '#' := fun hc => hurl (by simp [hc])
    have hcs : '#' ∉ cs := fun hcs => hurl (by simp [hcs])
    cases a with
    | nil =>
      simp at hab
      exact absurd hab.1 hc
    | cons x xs =>
      simp only [List.cons_append, List.cons.injEq] at hab
      have := ih xs hcs (by simpa using hab.2)
      simpa using this

/-- What `clone` runs for a spec `url#branch` whose `url` has no `#`: the
directory is removed, then the branch is cloned from `url`. -/
theorem clone_with_branch (W : World) (url branch dir : String) (s : State)
    (r : Option CommandResult)
    (hurl : '#' ∉ url.data) (hbranch : branch.data ≠ [])
    (hline : ∀ c ∈ branch.data, isLineTerminator c = false)
    (hrm : W.run s.trace ("rm -rf " ++ dir) RunOpts.none = .ok r) :
    ∃ logs, (clone W (url ++ "#" ++ branch) dir s).2.trace =
      s.trace ++ Event.run ("rm -rf " ++ dir) RunOpts.none ::
        Event.run ("git clone " ++ url ++ " -b " ++ branch ++ " --single-branch " ++ dir)
          RunOpts.none :: logs := by
  have hdata : (url ++ "#" ++ branch).data = url.data ++ '#' :: branch.data := by
    simp
  have hmatch := matchCommitRef_suffix url.data branch.data hurl hbranch hline
  have hclean : jsReplaceFirst (url ++ "#" ++ branch) (String.mk ('#' :: branch.data)) "" = url := by
    have h := jsReplaceFirst_first (url ++ "#" ++ branch) (String.mk ('#' :: branch.data)) ""
      url "" (by simp) (by apply String.ext; simp)
      (fun a b hab => first_hash url.data branch.data a b hurl (by
        rw [hdata] at hab
        simpa using hab)) (by simp)
    rw [h]
    apply String.ext
    simp
  unfold clone run
  simp only [hdata, hmatch, hrm, commitRefPattern, hclean, dropLeadingHash, if_true, ne_eq,
    reduceCtorEq, not_false_eq_true]
  cases W.run (s.emit (Event.run ("rm -rf " ++ dir) RunOpts.none)).trace
      ("git clone " ++ url ++ " -b " ++ branch ++ " --single-branch " ++ dir) RunOpts.none with
  | ok r2 => exact ⟨[], by simp only [State.emit, List.append_assoc]; rfl⟩
  | error e => exact ⟨[_], by simp only [State.emit, List.append_assoc]; rfl⟩

/-- What `clone` runs for a spec without `#` in which the text `null` does not
occur: the directory is removed, then `master` is cloned from the spec. -/
theorem clone_without_branch (W : World) (repo dir : String) (s : State)
    (r : Option CommandResult)
    (hrepo : '#' ∉ repo.data) (hnull : ¬ "null".data <:+: repo.data)
    (hrm : W.run s.trace ("rm -rf " ++ dir) RunOpts.none = .ok r) :
    ∃ logs, (clone W repo dir s).2.trace =
      s.trace ++ Event.run ("rm -rf " ++ dir) RunOpts.none ::
        Event.run ("git clone " ++ repo ++ " -b " ++ "master" ++ " --single-branch " ++ dir)
          RunOpts.none :: logs := by
  have hmatch := matchCommitRef_none repo.data hrepo
  have hclean : jsReplaceFirst repo "null" "" = repo := by
    unfold jsReplaceFirst
    rw [splitFirst_none _ _ hnull]
  unfold clone run
  simp only [hmatch, hrm, commitRefPattern, hclean]
  cases W.run (s.emit (Event.run ("rm -rf " ++ dir) RunOpts.none)).trace
      ("git clone " ++ repo ++ " -b " ++ "master" ++ " --single-branch " ++ dir) RunOpts.none with
  | ok r2 => exact ⟨[], by simp only [State.emit, List.append_assoc]; rfl⟩
  | error e => exact ⟨[_], by simp only [State.emit, List.append_assoc]; rfl⟩

/-- A failing clone command makes `clone` reject with that same error. -/
theorem clone_rejects_with_clone_error (W : World) (repo dir : String) (s : State)
    (r : Option CommandResult) (err : Err)
    (hrm : W.run s.trace ("rm -rf " ++ dir) RunOpts.none = .ok r)
    (hclone : ∀ command, W.run (s.emit (Event.run ("rm -rf " ++ dir) RunOpts.none)).trace command
      RunOpts.none = .error err) :
    (clone W repo dir s).1 = .rejected err := by
  unfold clone run
  simp only [hrm, hclone]

/-- C10, evaluated on the code: a clone spec without `#` that contains the text
`null` is not cloned unchanged; `null` is removed from it. -/
theorem clone_removes_null_from_spec :
    (clone (exampleWorld allSucceed (.error exampleErr)) "https://github.com/nullstack/app" "out"
      (exampleState false)).2.trace =
      [Event.run "rm -rf out" RunOpts.none,
       Event.run "git clone https://github.com/stack/app -b master --single-branch out"
         RunOpts.none] := by
  decide

end ReleaseIt
